import Mathlib

/-
Verification of `scripts/rpm_owners/set_github_code_owners.py`: a one-pass
reconciliation script that synchronizes a `.github/CODEOWNERS` file across the
repositories of the `xcp-ng-rpms` organization, deriving the expected owners
from a local `packages.json` registry.

The embedding works over Lean `String`/`List Char`.  The Python `\w` character
class (re.sub is applied to ASCII maintainer names) is modelled as
"ASCII alphanumeric or underscore", and `str.lower` as ASCII lower-casing,
matching the Python semantics on the ASCII inputs the script handles.
-/

namespace XcpOwners

/-- Word characters of the Python `\w` class (ASCII): alphanumeric or underscore. -/
def isWordChar (c : Char) : Bool := c.isAlphanum || c == '_'

/-- One left-to-right pass of `re.sub(r"\W+", "-", s)`: the flag records whether
we are inside a non-word run whose (single) replacement hyphen was already
emitted. -/
def subNonWordGo : Bool → List Char → List Char
  | _, [] => []
  | inRun, c :: cs =>
    if isWordChar c then c :: subNonWordGo false cs
    else if inRun then subNonWordGo true cs
    else '-' :: subNonWordGo true cs

/-- Model of `re.sub(r"\W+", "-", s)` on a character list. -/
def reSubNonWord (l : List Char) : List Char := subNonWordGo false l

/-- ASCII `str.lower` on a character list. -/
def pyLower (l : List Char) : List Char := l.map Char.toLower

/-- Model of `to_gh_team`: `"@xcp-ng-rpms/" + re.sub(r"\W+", "-", maintainer.lower())`. -/
def to_gh_team (maintainer : String) : String :=
  "@xcp-ng-rpms/" ++ String.mk (reSubNonWord (pyLower maintainer.data))

/-- The owners list built by `set_gh_code_owners`: starts as the singleton
maintainer, then the platform team is appended unless already present. -/
def ownersOf (maintainer : String) : List String :=
  let owners := [maintainer]
  if "OS Platform & Release" ∈ owners then owners
  else owners ++ ["OS Platform & Release"]

/-- The expected CODEOWNERS content:
`"* " + " ".join(to_gh_team(owner) for owner in owners) + "\n"`. -/
def expectedContent (maintainer : String) : String :=
  "* " ++ String.intercalate " " ((ownersOf maintainer).map to_gh_team) ++ "\n"

/-- A `packages.json` entry: the script only ever reads the `maintainer` field;
any further JSON fields are carried opaquely. -/
structure Rpm where
  maintainer : String
  extraFields : List (String × String)
deriving DecidableEq, Repr

/-- The expected content computed from a registry record (`rpm["maintainer"]`). -/
def expectedContentOfRpm (rpm : Rpm) : String := expectedContent rpm.maintainer

/-- Path of the reconciled file (`CODEOWNERS` constant in the script). -/
def CODEOWNERS : String := ".github/CODEOWNERS"

/-- Commit message template (`MESSAGE` constant), built from the invoking
git identity of the invoking user. -/
def MESSAGE (user email : String) : String :=
  "Set team owner\n\nSigned-off-by: " ++ user ++ " <" ++ email ++ ">\n"

/-- Result of `repo.get_contents(CODEOWNERS, branch)`: file found (content and
revision sha), `UnknownObjectException` (suppressed by the script), or any
other remote-layer exception (not suppressed). -/
inductive ReadResult
  | found (content sha : String)
  | notFound
  | remoteError
deriving DecidableEq, Repr

/-- A mutating remote call: `repo.create_file(path, message, content, branch)`
or `repo.update_file(path, message, content, sha, branch)`.  Only `update`
carries a revision token. -/
inductive WriteCall
  | create (path message content branch : String)
  | update (path message content sha branch : String)
deriving DecidableEq, Repr

/-- Per-branch reconciliation outcome. -/
inductive Outcome
  | created
  | updated
  | alreadyMatching
  | conflictReported
deriving DecidableEq, Repr

/-- What one iteration of the branch loop did: its outcome, the write call it
issued (if any), and the arguments of the `diff(current, expected)` it printed
to stdout (if any). -/
structure BranchResult where
  outcome : Outcome
  write : Option WriteCall
  diffPrintedOn : Option (Option String × String)
deriving DecidableEq, Repr

/-- One iteration of the `for branch in BRANCHES` loop of
`set_gh_code_owners`, given the result of the `get_contents` read.  A
non-`UnknownObjectException` remote failure is not caught and propagates
(`Except.error`).  The branch order mirrors the source:
`if current is None / elif force and current != content /
elif current == content / else`. -/
def reconcileBranch (path message branch expected : String) (force : Bool)
    (read : ReadResult) : Except Unit BranchResult :=
  match read with
  | .remoteError => .error ()
  | .notFound =>
      .ok ⟨.created, some (.create path message expected branch), none⟩
  | .found c sha =>
      if force = true ∧ c ≠ expected then
        .ok ⟨.updated, some (.update path message expected sha branch), none⟩
      else if c = expected then
        .ok ⟨.alreadyMatching, none, none⟩
      else
        .ok ⟨.conflictReported, none, some (some c, expected)⟩

/-- The branch loop of `set_gh_code_owners`: the `ok` flag starts `true` and is
cleared by every conflict-reported branch; the first uncaught remote error
aborts the run.  `reads` pairs each branch name with its remote read result. -/
def runBranches (path message expected : String) (force : Bool) :
    List (String × ReadResult) → Except Unit (Bool × List BranchResult)
  | [] => .ok (true, [])
  | (branch, r) :: rest =>
    match reconcileBranch path message branch expected force r with
    | .error e => .error e
    | .ok br =>
      match runBranches path message expected force rest with
      | .error e => .error e
      | .ok (okRest, brs) =>
        .ok ((!decide (br.outcome = .conflictReported)) && okRest, br :: brs)

/-- Model of `set_gh_code_owners(repo, rpm, force)`, with the remote state of the repository
abstracted as the list of per-branch read results. -/
def set_gh_code_owners (user email : String) (rpm : Rpm) (force : Bool)
    (reads : List (String × ReadResult)) : Except Unit (Bool × List BranchResult) :=
  runBranches CODEOWNERS (MESSAGE user email) (expectedContentOfRpm rpm) force reads

/-- The module-level main loop: `ok = True; for pkg in pkgs: ok &= set_gh_code_owners(...)`.
Returns the final `ok` with the per-repository results. -/
def mainLoop (user email : String) (force : Bool) :
    List (Rpm × List (String × ReadResult)) →
    Except Unit (Bool × List (Bool × List BranchResult))
  | [] => .ok (true, [])
  | (rpm, reads) :: rest =>
    match set_gh_code_owners user email rpm force reads with
    | .error e => .error e
    | .ok (okRepo, brs) =>
      match mainLoop user email force rest with
      | .error e => .error e
      | .ok (okRest, results) => .ok (okRepo && okRest, (okRepo, brs) :: results)

/-- Exit-code map, from `if not ok: exit(1)`; falling off the end of the script exits 0. -/
def exitCodeOf (ok : Bool) : Nat := if ok then 0 else 1

/-- A per-branch remote file state: absent, or present with content and sha. -/
def FileState : Type := Option (String × String)

/-- Reading a modelled remote state. -/
def readOf : FileState → ReadResult
  | none => .notFound
  | some (c, sha) => .found c sha

/-- Remote-state semantics of a write used for the idempotence property:
`create_file` and `update_file` store exactly the written content (the
platform assigns a fresh revision sha). -/
def applyWrite (st : FileState) (newSha : String) : Option WriteCall → FileState
  | none => st
  | some (.create _ _ content _) => some (content, newSha)
  | some (.update _ _ content _ _) => some (content, newSha)

end XcpOwners

namespace XcpOwners

/-- Spec-side formulation of §4.4: "replace every maximal run of one-or-more
non-alphanumeric/non-underscore characters with a single hyphen".  A maximal
non-word run is consumed with `dropWhile` and replaced by one hyphen. -/
def specCollapseRuns : List Char → List Char
  | [] => []
  | c :: cs =>
    if isWordChar c then c :: specCollapseRuns cs
    else '-' :: specCollapseRuns (cs.dropWhile (fun d => !isWordChar d))
termination_by l => l.length
decreasing_by
  all_goals simp only [List.length_cons]
  · exact Nat.lt_succ_of_le (Nat.le_refl _)
  · exact Nat.lt_succ_of_le (List.dropWhile_suffix _).length_le

/-- Spec-side team handle (§4.4): prefix, then the lower-cased name with every
maximal non-word run collapsed to a single hyphen. -/
def specTeamHandle (maintainer : String) : String :=
  "@xcp-ng-rpms/" ++ String.mk (specCollapseRuns (pyLower maintainer.data))

/-- Spec-side owners list (§3 ExpectedContent): the declared maintainer and the
fixed fallback platform team, de-duplicated when the names coincide. -/
def specOwners (maintainer : String) : List String :=
  if maintainer = "OS Platform & Release" then [maintainer]
  else [maintainer, "OS Platform & Release"]

/-- Spec-side expected content (§3): one line, wildcard marker first,
space-separated owner-team tokens, single trailing newline. -/
def specExpectedContent (maintainer : String) : String :=
  "* " ++ String.intercalate " " ((specOwners maintainer).map to_gh_team) ++ "\n"

/-- Inside a non-word run, the scanner state `true` is equivalent to having
dropped the rest of the run. -/
theorem subNonWordGo_true_eq_dropWhile (l : List Char) :
    subNonWordGo true l = subNonWordGo false (l.dropWhile (fun d => !isWordChar d)) := by
  induction l with
  | nil => rfl
  | cons c cs ih =>
    by_cases h : isWordChar c
    · simp [subNonWordGo, List.dropWhile, h]
    · simp only [subNonWordGo, h, if_false, if_true, List.dropWhile,
        Bool.not_eq_true', Bool.not_false]
      simp [h, ih]

/-- The one-pass scanner implements the maximal-run substitution. -/
theorem reSubNonWord_eq_specCollapseRuns (l : List Char) :
    reSubNonWord l = specCollapseRuns l := by
  induction l using specCollapseRuns.induct with
  | case1 => simp [reSubNonWord, subNonWordGo, specCollapseRuns]
  | case2 c cs h ih =>
    simp only [reSubNonWord, subNonWordGo, h, if_true, specCollapseRuns]
    exact congrArg _ ih
  | case3 c cs h ih =>
    simp only [reSubNonWord, subNonWordGo, h, if_false, Bool.false_eq_true,
      specCollapseRuns]
    rw [subNonWordGo_true_eq_dropWhile]
    exact congrArg _ ih

/-- C4: for every maintainer display name, `to_gh_team` yields the fixed
namespace prefix `@xcp-ng-rpms/` followed by the lower-cased name in which
every maximal run of non-alphanumeric/non-underscore characters is replaced
by a single hyphen (the spec-side formulation `specTeamHandle`). -/
theorem C4_team_handle_normalization (m : String) :
    to_gh_team m = specTeamHandle m := by
  simp only [to_gh_team, specTeamHandle, reSubNonWord_eq_specCollapseRuns]

/-- C5: the expected content is the single line `* ` followed by the
space-separated team handles of the declared maintainer and of the fallback
owner `OS Platform & Release`, with a trailing newline; when the maintainer
is the platform team itself, its handle appears exactly once. -/
theorem C5_expected_content_owners (m : String) :
    expectedContent m = specExpectedContent m ∧
      (m = "OS Platform & Release" →
        ((ownersOf m).map to_gh_team).count (to_gh_team "OS Platform & Release") = 1) := by
  by_cases h : m = "OS Platform & Release"
  · subst h
    refine ⟨?_, fun _ => ?_⟩
    · simp [expectedContent, specExpectedContent, ownersOf, specOwners]
    · simp [ownersOf]
  · refine ⟨?_, fun hm => absurd hm h⟩
    have h' : ¬ ("OS Platform & Release" = m) := fun hc => h hc.symm
    simp [expectedContent, specExpectedContent, ownersOf, specOwners, h, h']

/-- C5 witness: the de-duplication case at the concrete platform-team record. -/
theorem C5_expected_content_owners_witness :
    ((ownersOf "OS Platform & Release").map to_gh_team).count
      (to_gh_team "OS Platform & Release") = 1 :=
  (C5_expected_content_owners "OS Platform & Release").2 rfl

/-- C6 (as frozen) is false: the trailing `!!` of `"Some / Weird--Name!!"` is
itself a maximal non-word run and is also replaced by a hyphen, so the handle
suffix is not `some-weird-name`. -/
theorem C6_counterexample :
    to_gh_team "Some / Weird--Name!!" ≠ "@xcp-ng-rpms/some-weird-name" := by
  decide

/-- C6 (amended): the team-handle derivation applied to
`"Some / Weird--Name!!"` yields `@xcp-ng-rpms/some-weird-name-`, with a
trailing hyphen from the final maximal non-word run `!!`. -/
theorem C6_amended_team_handle :
    to_gh_team "Some / Weird--Name!!" = "@xcp-ng-rpms/some-weird-name-" := by
  decide

/-- C8: the expected-content derivation is a pure function of the maintainer
record — any two records with the same `maintainer` field (in particular two
uses of an identical record) yield byte-identical content. -/
theorem C8_expected_content_deterministic (r₁ r₂ : Rpm)
    (h : r₁.maintainer = r₂.maintainer) :
    expectedContentOfRpm r₁ = expectedContentOfRpm r₂ := by
  simp only [expectedContentOfRpm, h]

/-- C8 witness: two concrete records with the same maintainer field. -/
theorem C8_expected_content_deterministic_witness :
    expectedContentOfRpm ⟨"Alice", []⟩ = expectedContentOfRpm ⟨"Alice", [("url", "x")]⟩ :=
  C8_expected_content_deterministic ⟨"Alice", []⟩ ⟨"Alice", [("url", "x")]⟩ rfl

/-- C1: per branch, a remote write is attempted iff the ownership file is
absent (create, unconditionally) or it is present, force is set and its
content differs (update, with the previously fetched revision token); a
present-but-different file without force issues no write, prints the diff of
(current, expected) and marks the branch failed. -/
theorem C1_write_gating (path message branch expected : String) (force : Bool)
    (read : ReadResult) :
    (read = .notFound →
      reconcileBranch path message branch expected force read =
        .ok ⟨.created, some (.create path message expected branch), none⟩) ∧
    (∀ c sha, read = .found c sha →
      (force = true → c ≠ expected →
        reconcileBranch path message branch expected force read =
          .ok ⟨.updated, some (.update path message expected sha branch), none⟩) ∧
      (c = expected →
        reconcileBranch path message branch expected force read =
          .ok ⟨.alreadyMatching, none, none⟩) ∧
      (force = false → c ≠ expected →
        reconcileBranch path message branch expected force read =
          .ok ⟨.conflictReported, none, some (some c, expected)⟩)) ∧
    ((∃ br, reconcileBranch path message branch expected force read = .ok br ∧
        br.write ≠ none) ↔
      (read = .notFound ∨ ∃ c sha, read = .found c sha ∧ force = true ∧ c ≠ expected)) := by
  refine ⟨?_, ?_, ?_⟩
  · intro h; subst h; rfl
  · intro c sha h; subst h
    refine ⟨?_, ?_, ?_⟩
    · intro hf hne
      subst hf
      simp [reconcileBranch, hne]
    · intro heq
      subst heq
      simp [reconcileBranch]
    · intro hf hne
      subst hf
      simp [reconcileBranch, hne]
  · constructor
    · rintro ⟨br, hbr, hw⟩
      cases read with
      | remoteError => exact absurd hbr (by simp [reconcileBranch])
      | notFound => exact Or.inl rfl
      | found c sha =>
        by_cases h1 : force = true ∧ c ≠ expected
        · exact Or.inr ⟨c, sha, rfl, h1⟩
        · exfalso
          simp only [reconcileBranch, if_neg h1] at hbr
          by_cases h2 : c = expected
          · rw [if_pos h2] at hbr
            injection hbr with hbr
            subst hbr
            exact hw rfl
          · rw [if_neg h2] at hbr
            injection hbr with hbr
            subst hbr
            exact hw rfl
    · rintro (h | ⟨c, sha, hr, hf, hne⟩)
      · subst h
        exact ⟨_, rfl, by simp⟩
      · subst hr
        subst hf
        exact ⟨⟨.updated, some (.update path message expected sha branch), none⟩,
          by simp [reconcileBranch, hne], by simp⟩

/-- C1 witness: present, differing content, force off — no write, diff
printed, branch failed, at concrete inputs. -/
theorem C1_write_gating_witness :
    reconcileBranch "p" "m" "b" "e" false (.found "c" "s") =
      .ok ⟨.conflictReported, none, some (some "c", "e")⟩ :=
  ((C1_write_gating "p" "m" "b" "e" false (.found "c" "s")).2.1 "c" "s" rfl).2.2
    rfl (by decide)

/-- C2: an object-not-found read yields a create (never an update, no revision
token in the call) with the expected content, for either force mode; any other
remote-layer failure during the read propagates and aborts. -/
theorem C2_absent_creates_error_propagates
    (path message branch expected : String) (force : Bool) :
    reconcileBranch path message branch expected force .notFound =
      .ok ⟨.created, some (.create path message expected branch), none⟩ ∧
    reconcileBranch path message branch expected force .remoteError = .error () :=
  ⟨rfl, rfl⟩

/-- C7: under remote-state semantics where create/update store exactly the
written content, a second forced reconciliation of a branch whose first pass
was created or updated finds matching content and issues no write. -/
theorem C7_second_pass_already_matching
    (path message branch expected newSha : String) (st : FileState)
    (br : BranchResult)
    (h : reconcileBranch path message branch expected true (readOf st) = .ok br)
    (hout : br.outcome = .created ∨ br.outcome = .updated) :
    reconcileBranch path message branch expected true
        (readOf (applyWrite st newSha br.write)) =
      .ok ⟨.alreadyMatching, none, none⟩ := by
  cases st with
  | none =>
    simp only [readOf, reconcileBranch] at h
    injection h with h
    subst h
    simp [applyWrite, readOf, reconcileBranch]
  | some p =>
    obtain ⟨c, sha⟩ := p
    by_cases h1 : c = expected
    · subst h1
      simp only [readOf, reconcileBranch] at h
      rw [if_neg (by simp)] at h
      injection h with h
      subst h
      rcases hout with h2 | h2 <;> exact absurd h2 (by decide)
    · simp only [readOf, reconcileBranch] at h
      rw [if_pos ⟨trivial, h1⟩] at h
      injection h with h
      subst h
      simp [applyWrite, readOf, reconcileBranch]

/-- C7 witness: an absent file created on the first pass is already matching on
the second, at concrete inputs. -/
theorem C7_second_pass_already_matching_witness :
    reconcileBranch "p" "m" "b" "e" true
        (readOf (applyWrite none "sha2"
          (BranchResult.mk .created (some (.create "p" "m" "e" "b")) none).write)) =
      .ok ⟨.alreadyMatching, none, none⟩ :=
  C7_second_pass_already_matching "p" "m" "b" "e" "sha2" none
    ⟨.created, some (.create "p" "m" "e" "b"), none⟩ rfl (Or.inl rfl)

/-- Every character emitted by the substitution scanner is a word character of
the input or the replacement hyphen. -/
theorem mem_subNonWordGo (l : List Char) :
    ∀ (b : Bool) (c : Char), c ∈ subNonWordGo b l → isWordChar c = true ∨ c = '-' := by
  induction l with
  | nil => intro b c hc; simp [subNonWordGo] at hc
  | cons d ds ih =>
    intro b c hc
    by_cases hd : isWordChar d = true
    · simp only [subNonWordGo, hd, if_true] at hc
      rcases List.mem_cons.mp hc with h1 | h1
      · exact Or.inl (h1 ▸ hd)
      · exact ih false c h1
    · cases b with
      | true =>
        simp only [subNonWordGo, hd, if_false] at hc
        exact ih true c hc
      | false =>
        simp only [subNonWordGo, hd, if_false] at hc
        rcases List.mem_cons.mp hc with h1 | h1
        · exact Or.inr h1
        · exact ih true c h1

/-- A newline never survives the substitution: it is a non-word character. -/
theorem newline_not_mem_reSubNonWord (l : List Char) (b : Bool) :
    '\n' ∉ subNonWordGo b l := by
  intro hc
  rcases mem_subNonWordGo l b '\n' hc with h | h
  · exact absurd h (by decide)
  · exact absurd h (by decide)

/-- A team handle contains no newline character. -/
theorem newline_not_mem_to_gh_team (m : String) : '\n' ∉ (to_gh_team m).data := by
  intro hc
  simp only [to_gh_team, String.data_append] at hc
  rcases List.mem_append.mp hc with h | h
  · exact absurd h (by decide)
  · exact newline_not_mem_reSubNonWord _ _ h

/-- The part of the expected content before the trailing newline. -/
def expectedContentBody (m : String) : List Char :=
  ("* " ++ String.intercalate " " ((ownersOf m).map to_gh_team)).data

/-- The body of the expected line contains no newline, whatever the
maintainer string contains. -/
theorem newline_not_mem_expectedContentBody (m : String) :
    '\n' ∉ expectedContentBody m := by
  intro hc
  simp only [expectedContentBody, String.data_append] at hc
  rcases List.mem_append.mp hc with h | h
  · exact absurd h (by decide)
  · by_cases hm : "OS Platform & Release" ∈ [m]
    · simp only [String.intercalate, ownersOf, hm, if_true, List.map] at h
      exact newline_not_mem_to_gh_team m h
    · simp only [ownersOf, hm, if_false] at h
      have h2 : String.intercalate " " [to_gh_team m, to_gh_team "OS Platform & Release"] =
          to_gh_team m ++ " " ++ to_gh_team "OS Platform & Release" := rfl
      simp only [List.cons_append, List.nil_append, List.map, h2, String.data_append] at h
      rcases List.mem_append.mp h with h3 | h3
      · rcases List.mem_append.mp h3 with h4 | h4
        · exact newline_not_mem_to_gh_team m h4
        · exact absurd h4 (by decide)
      · exact newline_not_mem_to_gh_team _ h3

/-- C9: for every maintainer string, including strings containing newlines,
the expected content is exactly one line: it splits as a newline-free body
followed by a single final newline, and its newline count is one. -/
theorem C9_exactly_one_trailing_newline (m : String) :
    (expectedContent m).data = expectedContentBody m ++ ['\n'] ∧
      '\n' ∉ expectedContentBody m ∧
      (expectedContent m).data.count '\n' = 1 := by
  have hdata : (expectedContent m).data = expectedContentBody m ++ ['\n'] := by
    simp [expectedContent, expectedContentBody, String.data_append]
  refine ⟨hdata, newline_not_mem_expectedContentBody m, ?_⟩
  rw [hdata, List.count_append]
  rw [List.count_eq_zero.mpr (newline_not_mem_expectedContentBody m)]
  rfl

/-- C10: the empty maintainer name raises no error: the handle is exactly the
bare namespace prefix, and reconciliation proceeds with an expected-content
line whose first owner token is the bare prefix. -/
theorem C10_empty_maintainer_bare_namespace :
    to_gh_team "" = "@xcp-ng-rpms/" ∧
      expectedContent "" = "* @xcp-ng-rpms/ @xcp-ng-rpms/os-platform-release\n" := by
  decide

/-- The per-repository `ok` flag is the conjunction, over the branch loop, of
"this branch did not end in conflict". -/
theorem runBranches_ok_eq_all (path message expected : String) (force : Bool)
    (reads : List (String × ReadResult)) :
    ∀ (ok : Bool) (brs : List BranchResult),
      runBranches path message expected force reads = .ok (ok, brs) →
      ok = brs.all (fun br => !decide (br.outcome = .conflictReported)) := by
  induction reads with
  | nil =>
    intro ok brs h
    simp only [runBranches, Except.ok.injEq, Prod.mk.injEq] at h
    obtain ⟨h1, h2⟩ := h
    subst h1; subst h2
    rfl
  | cons p rest ih =>
    intro ok brs h
    obtain ⟨branch, r⟩ := p
    simp only [runBranches] at h
    cases hrec : reconcileBranch path message branch expected force r with
    | error e => rw [hrec] at h; simp at h
    | ok br =>
      rw [hrec] at h
      cases hrest : runBranches path message expected force rest with
      | error e => rw [hrest] at h; simp at h
      | ok pr =>
        obtain ⟨okRest, brsRest⟩ := pr
        rw [hrest] at h
        simp only [Except.ok.injEq, Prod.mk.injEq] at h
        obtain ⟨h1, h2⟩ := h
        subst h2
        subst h1
        simp only [List.all_cons, ih okRest brsRest hrest]

/-- The final `ok` flag is the conjunction of the per-repository flags, and
each recorded per-repository flag is the conjunction over its branches. -/
theorem mainLoop_ok_eq_all (user email : String) (force : Bool)
    (repos : List (Rpm × List (String × ReadResult))) :
    ∀ (ok : Bool) (results : List (Bool × List BranchResult)),
      mainLoop user email force repos = .ok (ok, results) →
      ok = results.all (fun p => p.1) ∧
      ∀ p ∈ results, p.1 = p.2.all (fun br => !decide (br.outcome = .conflictReported)) := by
  induction repos with
  | nil =>
    intro ok results h
    simp only [mainLoop, Except.ok.injEq, Prod.mk.injEq] at h
    obtain ⟨h1, h2⟩ := h
    subst h1; subst h2
    exact ⟨rfl, by simp⟩
  | cons q rest ih =>
    intro ok results h
    obtain ⟨rpm, reads⟩ := q
    simp only [mainLoop] at h
    cases hrepo : set_gh_code_owners user email rpm force reads with
    | error e => rw [hrepo] at h; simp at h
    | ok pr =>
      obtain ⟨okRepo, brs⟩ := pr
      rw [hrepo] at h
      cases hrest : mainLoop user email force rest with
      | error e => rw [hrest] at h; simp at h
      | ok qr =>
        obtain ⟨okRest, resultsRest⟩ := qr
        rw [hrest] at h
        simp only [Except.ok.injEq, Prod.mk.injEq] at h
        obtain ⟨h1, h2⟩ := h
        subst h2
        subst h1
        obtain ⟨ih1, ih2⟩ := ih okRest resultsRest hrest
        refine ⟨by simp only [List.all_cons, ih1], ?_⟩
        intro p hp
        rcases List.mem_cons.mp hp with h3 | h3
        · subst h3
          exact runBranches_ok_eq_all CODEOWNERS (MESSAGE user email)
            (expectedContentOfRpm rpm) force reads okRepo brs hrepo
        · exact ih2 p h3

/-- C3: for a run with no remote error, the process exits 1 iff some branch of
some intersected repository ended conflict-reported, exits 0 iff every branch
of every repository ended non-conflict, and the run flag is the conjunction of
the per-repository flags. -/
theorem C3_aggregate_exit_code (user email : String) (force : Bool)
    (repos : List (Rpm × List (String × ReadResult))) (ok : Bool)
    (results : List (Bool × List BranchResult))
    (h : mainLoop user email force repos = .ok (ok, results)) :
    (exitCodeOf ok = 1 ↔
      ∃ p ∈ results, ∃ br ∈ p.2, br.outcome = .conflictReported) ∧
    (exitCodeOf ok = 0 ↔
      ∀ p ∈ results, ∀ br ∈ p.2, br.outcome ≠ .conflictReported) ∧
    ok = results.all (fun p => p.1) := by
  obtain ⟨hok, hper⟩ := mainLoop_ok_eq_all user email force repos ok results h
  have hiff : ok = true ↔
      ∀ p ∈ results, ∀ br ∈ p.2, br.outcome ≠ .conflictReported := by
    rw [hok, List.all_eq_true]
    constructor
    · intro hall p hp br hbr
      have h1 := hall p hp
      rw [hper p hp, List.all_eq_true] at h1
      simpa using h1 br hbr
    · intro hall p hp
      rw [hper p hp, List.all_eq_true]
      intro br hbr
      simpa using hall p hp br hbr
  cases ok with
  | true =>
    refine ⟨?_, ?_, hok⟩
    · constructor
      · intro h0; exact absurd h0 (by decide)
      · rintro ⟨p, hp, br, hbr, hc⟩
        exact absurd hc (hiff.mp rfl p hp br hbr)
    · exact ⟨fun _ => hiff.mp rfl, fun _ => rfl⟩
  | false =>
    have hnot : ¬ ∀ p ∈ results, ∀ br ∈ p.2, br.outcome ≠ .conflictReported :=
      fun hall => by simpa using hiff.mpr hall
    push_neg at hnot
    refine ⟨?_, ?_, hok⟩
    · exact ⟨fun _ => hnot, fun _ => rfl⟩
    · constructor
      · intro h0; exact absurd h0 (by decide)
      · intro hall
        obtain ⟨p, hp, br, hbr, hc⟩ := hnot
        exact absurd hc (hall p hp br hbr)

/-- C3 witness: one repository whose single branch holds differing content,
force off — the run flag is the conjunction of the recorded per-repository
flags. -/
theorem C3_aggregate_exit_code_witness :
    false = ([((false : Bool),
        [(⟨Outcome.conflictReported, none, some (some "x", expectedContent "A")⟩ :
          BranchResult)])].all (fun p => p.1)) :=
  (C3_aggregate_exit_code "u" "e" false [(⟨"A", []⟩, [("master", .found "x" "s")])]
    false [(false, [⟨.conflictReported, none, some (some "x", expectedContent "A")⟩])]
    (by rfl)).2.2

end XcpOwners
